import Mathlib

/-!
Verification of the SideLinePro server core (src/server.js and its variants).

The development shallowly embeds the three core components of the server:

* the Generation Orchestrator `generateWithFallback` (src/server.js lines 41-59),
  modelled as a fold over the candidate model list with the remote inference
  call abstracted as an oracle `call : String → Except String α`;
* the Response Extractor (src/server.js line 285-286): fence stripping by two
  global string replacements, `trim`, and `JSON.parse`, modelled by an
  executable JSON parser faithful to the JSON grammar accepted by `JSON.parse`;
* the Roster Aggregator (src/server.js lines 288-304): the merge loop folding
  `players_detected` entries into the per-session roster.

JavaScript `undefined` field values are modelled as `Option.none`; the thrown
`Error`/`SyntaxError` values are modelled as the `Except.error`/dedicated
outcome constructors carrying the error message.
-/

namespace SideLinePro

/-! ### Generation Orchestrator (src/server.js lines 37-59) -/

/-- Outcome of one `generateWithFallback` invocation.  `success` models a
normal return, `aggregateError` models the final
`throw new Error("Analysis failed. Last error: " + lastError.message)`, and
`nullDeref` models the `TypeError` raised by reading `lastError.message`
while `lastError` is still `null`. -/
inductive GenOutcome (α : Type) where
  | success (result : α)
  | aggregateError (msg : String)
  | nullDeref
deriving DecidableEq, Repr

/-- The candidate model list of src/server.js line 37-39. -/
def MODEL_FALLBACK_LIST : List String :=
  ["gemini-2.0-flash-exp", "gemini-1.5-pro", "gemini-1.5-flash"]

/-- The body of `generateWithFallback`: iterate the candidate list in order,
threading the `lastError` variable; return on the first success; after the
loop, throw the aggregate error built from `lastError.message`.  The remote
call `model.generateContent` is abstracted as `call`.  The returned list is
the trace of candidates attempted, in order. -/
def fallbackAux (call : String → Except String α) :
    Option String → List String → List String × GenOutcome α
  | lastError, [] =>
    ([], match lastError with
         | some e => GenOutcome.aggregateError ("Analysis failed. Last error: " ++ e)
         | none => GenOutcome.nullDeref)
  | _, m :: ms =>
    match call m with
    | Except.ok r => ([m], GenOutcome.success r)
    | Except.error e =>
      let rest := fallbackAux call (some e) ms
      (m :: rest.1, rest.2)

/-- `generateWithFallback` specialised to an arbitrary candidate list
(`let lastError = null` is the initial accumulator). -/
def generateRun (call : String → Except String α) (models : List String) :
    List String × GenOutcome α :=
  fallbackAux call none models

/-- `generateWithFallback` as in src/server.js: the loop run over the global
`MODEL_FALLBACK_LIST`. -/
def generateWithFallback (call : String → Except String α) : List String × GenOutcome α :=
  generateRun call MODEL_FALLBACK_LIST

/-! ### Roster data model (src/server.js lines 77-85, 288-304) -/

/-- One entry of the `players_detected` list of the parsed report.  Fields
absent from the JSON object (JavaScript `undefined`) are `none`. -/
structure Detection where
  identifier : Option String
  position : Option String
  grade : Option String
  observation : Option String
  weakness : Option String
deriving DecidableEq, Repr

/-- A roster entry (`PlayerProfileSchema`, src/server.js lines 77-79).
`last_updated` is a timestamp (`Date` modelled as `Nat`); `notes` may carry
`undefined` entries because the merge loop pushes `p.observation` unchecked. -/
structure PlayerProfile where
  identifier : Option String
  position : Option String
  grade : Option String
  notes : List (Option String)
  weaknesses : List String
  last_updated : Nat
deriving DecidableEq, Repr

/-- JavaScript truthiness of `p.weakness` (`if(p.weakness)`): an absent field
and the empty string are falsy, any other string is truthy.  Both branches of
the merge loop turn the weakness tag into a zero- or one-element list this
way (`p.weakness ? [p.weakness] : []`). -/
def weaknessAppend : Option String → List String
  | some w => if w == "" then [] else [w]
  | none => []

/-- The found branch of the merge loop (src/server.js lines 292-295):
overwrite the grade, push the observation onto `notes`, push the weakness tag
onto `weaknesses` when truthy, refresh `last_updated`. -/
def updateProfile (now : Nat) (r : PlayerProfile) (p : Detection) : PlayerProfile :=
  { r with
    grade := p.grade
    notes := r.notes ++ [p.observation]
    weaknesses := r.weaknesses ++ weaknessAppend p.weakness
    last_updated := now }

/-- The not-found branch (src/server.js lines 297-300): a new profile pushed
onto the roster; `last_updated` comes from the schema default `Date.now`
(src/server.js line 78). -/
def freshProfile (now : Nat) (p : Detection) : PlayerProfile :=
  { identifier := p.identifier
    position := p.position
    grade := p.grade
    notes := [p.observation]
    weaknesses := weaknessAppend p.weakness
    last_updated := now }

/-- One iteration of the merge loop: `findIndex(r => r.identifier ===
p.identifier)` followed by in-place update of the first match, or `push` of a
fresh profile when there is none.  Written as structural recursion over the
roster, which is extensionally the findIndex/set/push of the source. -/
def mergeOne (now : Nat) (p : Detection) : List PlayerProfile → List PlayerProfile
  | [] => [freshProfile now p]
  | r :: rs =>
    if r.identifier == p.identifier then updateProfile now r p :: rs
    else r :: mergeOne now p rs

/-- The whole merge loop (src/server.js lines 289-302): fold the detections
into the roster in list order. -/
def merge (now : Nat) (roster : List PlayerProfile) (detections : List Detection) :
    List PlayerProfile :=
  detections.foldl (fun acc p => mergeOne now p acc) roster

/-- The identifiers of a roster, in roster order. -/
def idsOf (roster : List PlayerProfile) : List (Option String) :=
  roster.map PlayerProfile.identifier

/-- A detection entry with every field absent: the shape produced by a
malformed `players_detected` element such as `{}`. -/
def blankDetection : Detection :=
  { identifier := none, position := none, grade := none, observation := none, weakness := none }

/-- Profile-profile relation: what the merge loop may do to a pre-existing
entry — keep its identifier and only ever append to `notes`/`weaknesses`. -/
def profileExtends (r r' : PlayerProfile) : Prop :=
  r'.identifier = r.identifier ∧ r.notes <+: r'.notes ∧ r.weaknesses <+: r'.weaknesses

/-! ### Response Extractor (src/server.js lines 285-286)

`let text = result.response.text().replace(/```json/g, '').replace(/```/g, '').trim();`
`let json = JSON.parse(text);`

The two regex replacements are global replacements of literal patterns by the
empty string, i.e. removal of the non-overlapping occurrences found left to
right.  `JSON.parse` is modelled by an executable recursive-descent parser of
the JSON grammar; a thrown `SyntaxError` is `Except.error` carrying the
message.  Numbers are kept as their lexemes (no numeric semantics is needed
by any property below). -/

/-- Parsed JSON values. -/
inductive Json where
  | null
  | bool (flag : Bool)
  | num (lexeme : String)
  | str (text : String)
  | arr (items : List Json)
  | obj (pairs : List (String × Json))

/-- Whitespace accepted between JSON tokens (as in the JSON grammar). -/
def isJsonWs (c : Char) : Bool :=
  c == ' ' || c == '\t' || c == '\n' || c == '\r'

/-- Skip inter-token whitespace. -/
def skipWs (s : List Char) : List Char :=
  s.dropWhile isJsonWs

/-- Single-character string escapes of JSON. -/
def escChar : Char → Option Char
  | '"' => some '"'
  | '\\' => some '\\'
  | '/' => some '/'
  | 'b' => some '\x08'
  | 'f' => some '\x0c'
  | 'n' => some '\n'
  | 'r' => some '\r'
  | 't' => some '\t'
  | _ => none

/-- Value of one hexadecimal digit (by code point: digits, then the
lowercase and uppercase letter ranges). -/
def hexDigit (c : Char) : Option Nat :=
  let n := c.toNat
  if 48 ≤ n && n ≤ 57 then some (n - 48)
  else if 97 ≤ n && n ≤ 102 then some (n - 87)
  else if 65 ≤ n && n ≤ 70 then some (n - 55)
  else none

/-- Combine four hexadecimal digits into one code point. -/
def hexQuad4 (q1 q2 q3 q4 : Char) : Option Nat :=
  match hexDigit q1, hexDigit q2, hexDigit q3, hexDigit q4 with
  | some w, some x, some y, some z => some (w * 4096 + x * 256 + y * 16 + z)
  | _, _, _, _ => none

/-- The tail of a keyword literal: succeeds when `lit` opens `tail`,
returning what follows. -/
def afterLit (tail lit : List Char) : Option (List Char) :=
  if lit.isPrefixOf tail then some (tail.drop lit.length) else none

/-- Body of a JSON string literal, after the opening quote; returns the
decoded characters and the remaining input after the closing quote. -/
def strBody : List Char → Except String (List Char × List Char)
  | [] => Except.error "Unterminated string in JSON"
  | '"' :: rest => Except.ok ([], rest)
  | '\\' :: t =>
    match t with
    | [] => Except.error "Unterminated string in JSON"
    | 'u' :: q1 :: q2 :: q3 :: q4 :: tail =>
      match hexQuad4 q1 q2 q3 q4 with
      | some n =>
        match strBody tail with
        | Except.error e => Except.error e
        | Except.ok (cs, r) => Except.ok (Char.ofNat n :: cs, r)
      | none => Except.error "Bad Unicode escape in JSON"
    | 'u' :: _ => Except.error "Bad Unicode escape in JSON"
    | e :: rest =>
      match escChar e with
      | some c =>
        match strBody rest with
        | Except.error msg => Except.error msg
        | Except.ok (cs, r) => Except.ok (c :: cs, r)
      | none => Except.error "Bad escaped character in JSON"
  | c :: rest =>
    if c.toNat < 32 then Except.error "Bad control character in JSON"
    else
      match strBody rest with
      | Except.error msg => Except.error msg
      | Except.ok (cs, r) => Except.ok (c :: cs, r)

/-- Optional fraction part of a JSON number. -/
def numFrac : List Char → Except String (List Char × List Char)
  | '.' :: t =>
    let p := t.span (fun c => c.isDigit)
    if p.1.isEmpty then Except.error "Unterminated fractional number in JSON"
    else Except.ok ('.' :: p.1, p.2)
  | s => Except.ok ([], s)

/-- Optional exponent part of a JSON number. -/
def numExp : List Char → Except String (List Char × List Char)
  | [] => Except.ok ([], [])
  | c :: t =>
    if c == 'e' || c == 'E' then
      let sp := match t with
        | '+' :: u => ((['+'] : List Char), u)
        | '-' :: u => ((['-'] : List Char), u)
        | _ => (([] : List Char), t)
      let p := sp.2.span (fun x => x.isDigit)
      if p.1.isEmpty then Except.error "Exponent part is missing a number in JSON"
      else Except.ok (c :: (sp.1 ++ p.1), p.2)
    else Except.ok ([], c :: t)

/-- A JSON number (sign, integer part without leading zeros, optional
fraction and exponent), returned as its lexeme. -/
def parseNum (s : List Char) : Except String (List Char × List Char) :=
  let sp := match s with
    | '-' :: t => ((['-'] : List Char), t)
    | _ => (([] : List Char), s)
  let ipp := sp.2.span (fun c => c.isDigit)
  if ipp.1.isEmpty then Except.error "No number after minus sign in JSON"
  else if ipp.1.length > 1 && (ipp.1.headD '0' == '0') then
    Except.error "Unexpected number in JSON"
  else
    match numFrac ipp.2 with
    | Except.error e => Except.error e
    | Except.ok (fp, r2) =>
      match numExp r2 with
      | Except.error e => Except.error e
      | Except.ok (ep, r3) => Except.ok (sp.1 ++ ipp.1 ++ fp ++ ep, r3)

mutual

/-- One JSON value; `fuel` bounds the nesting (chosen large enough in
`jsonParse` to never run out on the given input). -/
def parseVal : Nat → List Char → Except String (Json × List Char)
  | 0, _ => Except.error "Maximum call stack size exceeded"
  | fuel + 1, s =>
    match skipWs s with
    | [] => Except.error "Unexpected end of JSON input"
    | '\x7b' :: rest => parseObjBody fuel rest
    | '[' :: rest => parseArrBody fuel rest
    | '"' :: rest =>
      match strBody rest with
      | Except.error e => Except.error e
      | Except.ok (cs, r) => Except.ok (Json.str (String.mk cs), r)
    | 't' :: rest =>
      match afterLit rest ("rue".toList) with
      | some r => Except.ok (Json.bool true, r)
      | none => Except.error "Unexpected token in JSON"
    | 'f' :: rest =>
      match afterLit rest ("alse".toList) with
      | some r => Except.ok (Json.bool false, r)
      | none => Except.error "Unexpected token in JSON"
    | 'n' :: rest =>
      match afterLit rest ("ull".toList) with
      | some r => Except.ok (Json.null, r)
      | none => Except.error "Unexpected token in JSON"
    | c :: rest =>
      if c == '-' || c.isDigit then
        match parseNum (c :: rest) with
        | Except.error e => Except.error e
        | Except.ok (lex, r) => Except.ok (Json.num (String.mk lex), r)
      else Except.error "Unexpected token in JSON"

/-- Object body after the opening brace. -/
def parseObjBody : Nat → List Char → Except String (Json × List Char)
  | 0, _ => Except.error "Maximum call stack size exceeded"
  | fuel + 1, s =>
    match skipWs s with
    | '\x7d' :: rest => Except.ok (Json.obj [], rest)
    | t =>
      match parseObjItems fuel t with
      | Except.error e => Except.error e
      | Except.ok (fs, r) => Except.ok (Json.obj fs, r)

/-- Non-empty member list of an object. -/
def parseObjItems : Nat → List Char → Except String (List (String × Json) × List Char)
  | 0, _ => Except.error "Maximum call stack size exceeded"
  | fuel + 1, s =>
    match s with
    | '"' :: rest =>
      match strBody rest with
      | Except.error e => Except.error e
      | Except.ok (kcs, r1) =>
        match skipWs r1 with
        | ':' :: r2 =>
          match parseVal fuel r2 with
          | Except.error e => Except.error e
          | Except.ok (v, r3) =>
            match skipWs r3 with
            | ',' :: r4 =>
              match parseObjItems fuel (skipWs r4) with
              | Except.error e => Except.error e
              | Except.ok (fs, r5) => Except.ok ((String.mk kcs, v) :: fs, r5)
            | '\x7d' :: r4 => Except.ok ([(String.mk kcs, v)], r4)
            | _ => Except.error "Expected comma or closing brace after property value in JSON"
        | _ => Except.error "Expected colon after property name in JSON"
    | _ => Except.error "Expected property name or closing brace in JSON"

/-- Array body after the opening bracket. -/
def parseArrBody : Nat → List Char → Except String (Json × List Char)
  | 0, _ => Except.error "Maximum call stack size exceeded"
  | fuel + 1, s =>
    match skipWs s with
    | ']' :: rest => Except.ok (Json.arr [], rest)
    | t =>
      match parseArrItems fuel t with
      | Except.error e => Except.error e
      | Except.ok (vs, r) => Except.ok (Json.arr vs, r)

/-- Non-empty element list of an array. -/
def parseArrItems : Nat → List Char → Except String (List Json × List Char)
  | 0, _ => Except.error "Maximum call stack size exceeded"
  | fuel + 1, s =>
    match parseVal fuel s with
    | Except.error e => Except.error e
    | Except.ok (v, r1) =>
      match skipWs r1 with
      | ',' :: r2 =>
        match parseArrItems fuel r2 with
        | Except.error e => Except.error e
        | Except.ok (vs, r3) => Except.ok (v :: vs, r3)
      | ']' :: r2 => Except.ok ([v], r2)
      | _ => Except.error "Expected comma or closing bracket after array element in JSON"

end

/-- `JSON.parse`: parse one value and require only whitespace after it.  A
thrown `SyntaxError` is the `Except.error` case. -/
def jsonParse (s : String) : Except String Json :=
  match parseVal (s.toList.length + 8) s.toList with
  | Except.error e => Except.error e
  | Except.ok (j, rest) =>
    if (skipWs rest).isEmpty then Except.ok j
    else Except.error "Unexpected non-whitespace character after JSON data"

/-- Fuel-indexed removal of the non-overlapping occurrences of `pat`, found
left to right — the semantics of `String.prototype.replace` with a global
literal pattern and empty replacement.  The fuel (`s.length` at top level)
only drives the structural recursion and is never exhausted. -/
def stripAllF (pat : List Char) : Nat → List Char → List Char
  | 0, s => s
  | _ + 1, [] => []
  | fuel + 1, c :: cs =>
    if pat.isPrefixOf (c :: cs) then stripAllF pat fuel (cs.drop (pat.length - 1))
    else c :: stripAllF pat fuel cs

/-- `s.replace(/pat/g, '')` for a literal pattern `pat`. -/
def stripAll (pat : List Char) (s : List Char) : List Char :=
  stripAllF pat s.length s

/-- Whitespace removed by `String.prototype.trim` (the ASCII part). -/
def isTrimWs (c : Char) : Bool :=
  c == ' ' || c == '\t' || c == '\n' || c == '\r' || c == '\x0b' || c == '\x0c'

/-- `s.trim()`: drop whitespace from both ends. -/
def jsTrim (s : List Char) : List Char :=
  ((s.dropWhile isTrimWs).reverse.dropWhile isTrimWs).reverse

/-- The literal pattern of `replace(/```json/g, '')`. -/
def fenceJson : List Char := "```json".toList

/-- The literal pattern of `replace(/```/g, '')`. -/
def fence3 : List Char := "```".toList

/-- The normalisation applied to the raw model output before parsing
(src/server.js line 285). -/
def normalize (raw : String) : String :=
  String.mk (jsTrim (stripAll fence3 (stripAll fenceJson raw.toList)))

/-- The extraction step: normalise, then `JSON.parse`. -/
def extract (raw : String) : Except String Json :=
  jsonParse (normalize raw)

/-- A payload wrapped in fenced code-block markers, as a model reply would
wrap it. -/
def wrapFence (t : String) : String :=
  "```json\n" ++ t ++ "\n```"

/-- The error message of a failed extraction, if any. -/
def errOf : Except String Json → Option String
  | Except.error e => some e
  | Except.ok _ => none

/-- Whether an extraction succeeded. -/
def exOk : Except String Json → Bool
  | Except.ok _ => true
  | Except.error _ => false

/-- Contiguous-sublist test on character lists. -/
def infixCheck : List Char → List Char → Bool
  | needle, [] => needle.isEmpty
  | needle, c :: rest => needle.isPrefixOf (c :: rest) || infixCheck needle rest

/-- Substring test (used to state what an error message carries). -/
def containsStr (needle hay : String) : Bool :=
  infixCheck needle.toList hay.toList

/-! ### The analysis route around the extractor (src/server.js lines 202-325)

Only the post-generation tail of the `/api/chat` handler is modelled: the
extraction of the report and the roster merge, inside the handler's
`try`/`catch` which converts any thrown error into a 500 response carrying
`e.message`.  Persistence and the clip record are external. -/

/-- Outcome of the modelled route tail: a parsed report plus the updated
roster, or the 500 response produced by the `catch` block. -/
inductive RouteResult where
  | ok (report : Json) (roster : List PlayerProfile)
  | serverError (msg : String)

/-- Field lookup on a parsed JSON object, as a string: `undefined` and
non-string values are modelled as `none`. -/
def strField (fs : List (String × Json)) (key : String) : Option String :=
  match fs.lookup key with
  | some (Json.str v) => some v
  | _ => none

/-- The five properties the merge loop reads from one `players_detected`
element.  A non-object element yields only `undefined` reads. -/
def toDetection : Json → Detection
  | Json.obj fs =>
    { identifier := strField fs "identifier"
      position := strField fs "position"
      grade := strField fs "grade"
      observation := strField fs "observation"
      weakness := strField fs "weakness" }
  | _ => blankDetection

/-- `json.players_detected` when it is a non-empty-able array; anything else
makes the `if` guard skip the loop. -/
def playersDetected : Json → List Json
  | Json.obj fs =>
    match fs.lookup "players_detected" with
    | some (Json.arr xs) => xs
    | _ => []
  | _ => []

/-- The modelled route tail: extract, then merge; a thrown parse error is
caught by the handler's `catch` and becomes a 500 response with the error's
message (src/server.js lines 320-324). -/
def analysisRoute (now : Nat) (roster : List PlayerProfile) (raw : String) : RouteResult :=
  match extract raw with
  | Except.error m => RouteResult.serverError m
  | Except.ok j => RouteResult.ok j (merge now roster ((playersDetected j).map toDetection))

/-! ### Concrete fixtures used by the witness theorems -/

/-- An inference oracle for which exactly the last configured candidate
succeeds. -/
def demoCall : String → Except String Nat :=
  fun s => if s == "gemini-1.5-flash" then Except.ok 1 else Except.error (s ++ " is not found")

/-- An inference oracle for which every candidate fails. -/
def demoFailCall : String → Except String Nat :=
  fun s => Except.error ("model " ++ s ++ " is overloaded")

/-- The detection of §8 of the spec: first sighting of CB3. -/
def cb3Detection : Detection :=
  { identifier := some "CB3", position := some "cb", grade := some "C-"
    observation := some "late jump", weakness := some "phase" }

/-- The detection of §8 of the spec: second sighting of CB3, no weakness. -/
def cb3Detection2 : Detection :=
  { identifier := some "CB3", position := some "cb", grade := some "B"
    observation := some "better leverage", weakness := none }

/-- The roster holding CB3 after its first sighting at time 1. -/
def cb3Profile : PlayerProfile :=
  { identifier := some "CB3", position := some "cb", grade := some "C-"
    notes := [some "late jump"], weaknesses := ["phase"], last_updated := 1 }

/-- A truncated model reply (cut off inside the payload). -/
def rawTrunc : String := "\x7b\"title\": "

/-- A well-formed report payload with one detected player. -/
def rawGood : String :=
  "\x7b\"title\": \"Slant vs Cover 1\", \"players_detected\": [\x7b\"identifier\": \"CB3\", \"grade\": \"B\"\x7d]\x7d"

end SideLinePro

namespace SideLinePro

/-! ## Theorems

First the helper lemmas, then one theorem per claim (with its witness or
counterexample where applicable). -/

/-! ### Orchestrator lemmas -/

theorem fallbackAux_last_ok {α : Type} (call : String → Except String α)
    (ms : List String) (m : String) (r : α)
    (hfail : ∀ x ∈ ms, ∃ e, call x = Except.error e)
    (hsucc : call m = Except.ok r) :
    ∀ le, fallbackAux call le (ms ++ [m]) = (ms ++ [m], GenOutcome.success r) := by
  induction ms with
  | nil =>
    intro le
    simp [fallbackAux, hsucc]
  | cons x xs ih =>
    intro le
    obtain ⟨e, he⟩ := hfail x (List.mem_cons_self x xs)
    have hrest := ih (fun y hy => hfail y (List.mem_cons_of_mem x hy)) (some e)
    simp [fallbackAux, he, hrest]

theorem fallbackAux_all_error {α : Type} (call : String → Except String α)
    (ms : List String) (m : String) (em : String)
    (hfail : ∀ x ∈ ms, ∃ e, call x = Except.error e)
    (hlast : call m = Except.error em) :
    ∀ le, fallbackAux call le (ms ++ [m]) =
      (ms ++ [m], GenOutcome.aggregateError ("Analysis failed. Last error: " ++ em)) := by
  induction ms with
  | nil =>
    intro le
    simp [fallbackAux, hlast]
  | cons x xs ih =>
    intro le
    obtain ⟨e, he⟩ := hfail x (List.mem_cons_self x xs)
    have hrest := ih (fun y hy => hfail y (List.mem_cons_of_mem x hy)) (some e)
    simp [fallbackAux, he, hrest]

theorem isPrefixOf_self (l : List Char) : l.isPrefixOf l = true := by
  induction l with
  | nil => rfl
  | cons c cs ih => simp [List.isPrefixOf, ih]

theorem infixCheck_append (n pre : List Char) : infixCheck n (pre ++ n) = true := by
  induction pre with
  | nil =>
    cases n with
    | nil => rfl
    | cons c cs => simp [infixCheck, isPrefixOf_self]
  | cons p pre ih => simp [infixCheck, ih]

theorem toList_append (a b : String) : (a ++ b).toList = a.toList ++ b.toList := by
  cases a
  cases b
  rfl

/-! ### Claim theorems: Orchestrator -/

/-- C2: for every non-empty candidate list in which every candidate before
the last fails and the last succeeds, `generateWithFallback` attempts each
prior candidate exactly once, in list order (the attempt trace is exactly
the candidate list), and returns the last candidate's result; nothing is
attempted after the first success. -/
theorem fallback_last_success {α : Type} (call : String → Except String α)
    (ms : List String) (m : String) (r : α)
    (hfail : ∀ x ∈ ms, ∃ e, call x = Except.error e)
    (hsucc : call m = Except.ok r) :
    generateRun call (ms ++ [m]) = (ms ++ [m], GenOutcome.success r) :=
  fallbackAux_last_ok call ms m r hfail hsucc none

/-- Witness for C2 at the configured `MODEL_FALLBACK_LIST` shape: the two
prior candidates fail, the last succeeds, the trace is the whole list. -/
theorem fallback_last_success_witness :
    (∀ x ∈ ["gemini-2.0-flash-exp", "gemini-1.5-pro"], ∃ e, demoCall x = Except.error e) ∧
    demoCall "gemini-1.5-flash" = Except.ok 1 ∧
    generateRun demoCall (["gemini-2.0-flash-exp", "gemini-1.5-pro"] ++ ["gemini-1.5-flash"]) =
      (["gemini-2.0-flash-exp", "gemini-1.5-pro"] ++ ["gemini-1.5-flash"],
        GenOutcome.success 1) := by
  have hfail : ∀ x ∈ ["gemini-2.0-flash-exp", "gemini-1.5-pro"],
      ∃ e, demoCall x = Except.error e := by
    intro x hx
    simp only [List.mem_cons, List.not_mem_nil, or_false] at hx
    rcases hx with rfl | rfl
    · exact ⟨_, rfl⟩
    · exact ⟨_, rfl⟩
  exact ⟨hfail, rfl, fallback_last_success demoCall _ _ 1 hfail rfl⟩

/-- C3: when every candidate fails, `generateWithFallback` raises the
aggregate error, and its message includes the failure description of the
final (last-attempted) candidate. -/
theorem fallback_all_fail {α : Type} (call : String → Except String α)
    (ms : List String) (m : String) (em : String)
    (hfail : ∀ x ∈ ms, ∃ e, call x = Except.error e)
    (hlast : call m = Except.error em) :
    generateRun call (ms ++ [m]) =
      (ms ++ [m], GenOutcome.aggregateError ("Analysis failed. Last error: " ++ em)) ∧
    containsStr em ("Analysis failed. Last error: " ++ em) = true := by
  refine ⟨fallbackAux_all_error call ms m em hfail hlast none, ?_⟩
  unfold containsStr
  rw [toList_append]
  exact infixCheck_append _ _

/-- Witness for C3: all three configured candidates fail; the aggregate
message carries the last candidate's failure description. -/
theorem fallback_all_fail_witness :
    (∀ x ∈ ["gemini-2.0-flash-exp", "gemini-1.5-pro"], ∃ e, demoFailCall x = Except.error e) ∧
    demoFailCall "gemini-1.5-flash" = Except.error "model gemini-1.5-flash is overloaded" ∧
    generateRun demoFailCall (["gemini-2.0-flash-exp", "gemini-1.5-pro"] ++ ["gemini-1.5-flash"]) =
      (["gemini-2.0-flash-exp", "gemini-1.5-pro"] ++ ["gemini-1.5-flash"],
        GenOutcome.aggregateError
          ("Analysis failed. Last error: " ++ "model gemini-1.5-flash is overloaded")) ∧
    containsStr "model gemini-1.5-flash is overloaded"
      ("Analysis failed. Last error: " ++ "model gemini-1.5-flash is overloaded") = true := by
  have hfail : ∀ x ∈ ["gemini-2.0-flash-exp", "gemini-1.5-pro"],
      ∃ e, demoFailCall x = Except.error e := by
    intro x hx
    exact ⟨_, rfl⟩
  have h := fallback_all_fail demoFailCall ["gemini-2.0-flash-exp", "gemini-1.5-pro"]
    "gemini-1.5-flash" "model gemini-1.5-flash is overloaded" hfail rfl
  exact ⟨hfail, rfl, h.1, h.2⟩

/-- C10: invoked with an empty candidate list, the fallback loop attempts no
candidate and fails by dereferencing the null `lastError` (a `TypeError`
from `lastError.message`), not by raising the documented aggregate
`Analysis failed` error. -/
theorem fallback_empty_null_deref {α : Type} (call : String → Except String α) :
    generateRun call [] = ([], GenOutcome.nullDeref) := rfl

/-! ### Aggregator lemmas -/

theorem idsOf_nil : idsOf [] = [] := rfl

theorem idsOf_cons (r : PlayerProfile) (rs : List PlayerProfile) :
    idsOf (r :: rs) = r.identifier :: idsOf rs := rfl

theorem idsOf_append (a b : List PlayerProfile) : idsOf (a ++ b) = idsOf a ++ idsOf b :=
  List.map_append _ a b

theorem length_idsOf (l : List PlayerProfile) : (idsOf l).length = l.length :=
  List.length_map l _

theorem idsOf_mergeOne (now : Nat) (p : Detection) (roster : List PlayerProfile) :
    idsOf (mergeOne now p roster) =
      if p.identifier ∈ idsOf roster then idsOf roster
      else idsOf roster ++ [p.identifier] := by
  induction roster with
  | nil => simp [mergeOne, freshProfile, idsOf]
  | cons r rs ih =>
    by_cases h : (r.identifier == p.identifier) = true
    · have heq : r.identifier = p.identifier := beq_iff_eq.mp h
      rw [mergeOne, if_pos h, idsOf_cons, idsOf_cons]
      have hup : (updateProfile now r p).identifier = r.identifier := rfl
      rw [hup, if_pos]
      exact heq ▸ List.mem_cons_self _ _
    · have hne : r.identifier ≠ p.identifier := beq_eq_false_iff_ne.mp (by simpa using h)
      rw [mergeOne, if_neg (by simp [h]), idsOf_cons, idsOf_cons, ih]
      by_cases hm : p.identifier ∈ idsOf rs
      · rw [if_pos hm, if_pos (List.mem_cons_of_mem _ hm)]
      · rw [if_neg hm, if_neg, List.cons_append]
        simp only [List.mem_cons]
        rintro (hc | hc)
        · exact hne hc.symm
        · exact hm hc

theorem length_mergeOne (now : Nat) (p : Detection) (roster : List PlayerProfile) :
    (mergeOne now p roster).length =
      if p.identifier ∈ idsOf roster then roster.length else roster.length + 1 := by
  rw [← length_idsOf, idsOf_mergeOne]
  by_cases hm : p.identifier ∈ idsOf roster
  · rw [if_pos hm, if_pos hm, length_idsOf]
  · rw [if_neg hm, if_neg hm, List.length_append, length_idsOf, List.length_singleton]

theorem merge_nil (now : Nat) (roster : List PlayerProfile) : merge now roster [] = roster := rfl

theorem merge_cons (now : Nat) (roster : List PlayerProfile) (d : Detection)
    (ds : List Detection) :
    merge now roster (d :: ds) = merge now (mergeOne now d roster) ds := rfl

theorem merge_length (now : Nat) (ds : List Detection) : ∀ roster : List PlayerProfile,
    (merge now roster ds).length =
      roster.length +
        ((ds.map Detection.identifier).toFinset \ (idsOf roster).toFinset).card := by
  induction ds with
  | nil => intro roster; simp [merge]
  | cons d ds ih =>
    intro roster
    rw [merge_cons, ih]
    by_cases hmem : d.identifier ∈ idsOf roster
    · rw [length_mergeOne, if_pos hmem, idsOf_mergeOne, if_pos hmem]
      congr 1
      rw [List.map_cons, List.toFinset_cons]
      congr 1
      exact (Finset.insert_sdiff_of_mem _ (List.mem_toFinset.mpr hmem)).symm
    · rw [length_mergeOne, if_neg hmem, idsOf_mergeOne, if_neg hmem]
      have htf : (idsOf roster ++ [d.identifier]).toFinset =
          insert d.identifier (idsOf roster).toFinset := by
        rw [List.toFinset_append]
        ext x
        simp
        tauto
      rw [htf, List.map_cons, List.toFinset_cons]
      have haR : d.identifier ∉ (idsOf roster).toFinset :=
        fun hc => hmem (List.mem_toFinset.mp hc)
      have h1 : (ds.map Detection.identifier).toFinset \ insert d.identifier (idsOf roster).toFinset =
          ((ds.map Detection.identifier).toFinset \ (idsOf roster).toFinset).erase d.identifier :=
        Finset.sdiff_insert _ _ _
      have h2 : insert d.identifier (ds.map Detection.identifier).toFinset \ (idsOf roster).toFinset =
          insert d.identifier ((ds.map Detection.identifier).toFinset \ (idsOf roster).toFinset) := by
        ext x
        simp only [Finset.mem_sdiff, Finset.mem_insert]
        constructor
        · rintro ⟨hx | hx, hxr⟩
          · exact Or.inl hx
          · exact Or.inr ⟨hx, hxr⟩
        · rintro (rfl | ⟨hx, hxr⟩)
          · exact ⟨Or.inl rfl, haR⟩
          · exact ⟨Or.inr hx, hxr⟩
      rw [h1, h2]
      by_cases hs : d.identifier ∈ (ds.map Detection.identifier).toFinset \ (idsOf roster).toFinset
      · rw [Finset.card_erase_of_mem hs, Finset.insert_eq_self.mpr hs]
        have hpos : 1 ≤ ((ds.map Detection.identifier).toFinset \ (idsOf roster).toFinset).card :=
          Finset.card_pos.mpr ⟨_, hs⟩
        omega
      · rw [Finset.erase_eq_of_not_mem hs, Finset.card_insert_of_not_mem hs]
        omega

theorem nodup_append_single {α : Type} {a : α} {l : List α} (h : l.Nodup) (ha : a ∉ l) :
    (l ++ [a]).Nodup := by
  induction l with
  | nil => simp
  | cons x xs ih =>
    rw [List.cons_append, List.nodup_cons]
    rw [List.nodup_cons] at h
    refine ⟨?_, ih h.2 (fun hm => ha (List.mem_cons_of_mem _ hm))⟩
    simp only [List.mem_append, List.mem_singleton]
    rintro (hx | rfl)
    · exact h.1 hx
    · exact ha (List.mem_cons_self _ _)

theorem nodup_merge (now : Nat) (ds : List Detection) : ∀ roster : List PlayerProfile,
    (idsOf roster).Nodup → (idsOf (merge now roster ds)).Nodup := by
  induction ds with
  | nil => intro roster h; exact h
  | cons d ds ih =>
    intro roster h
    rw [merge_cons]
    apply ih
    rw [idsOf_mergeOne]
    by_cases hmem : d.identifier ∈ idsOf roster
    · rwa [if_pos hmem]
    · rw [if_neg hmem]
      exact nodup_append_single h hmem

theorem mergeOne_append_no_match (now : Nat) (p : Detection) (pre rest : List PlayerProfile)
    (h : p.identifier ∉ idsOf pre) :
    mergeOne now p (pre ++ rest) = pre ++ mergeOne now p rest := by
  induction pre with
  | nil => rfl
  | cons r pre ih =>
    have hne : (r.identifier == p.identifier) = false := by
      rw [beq_eq_false_iff_ne]
      intro hc
      exact h (by rw [idsOf_cons, hc]; exact List.mem_cons_self _ _)
    rw [List.cons_append, mergeOne, if_neg (by simp [hne]), List.cons_append]
    rw [ih (fun hm => h (by rw [idsOf_cons]; exact List.mem_cons_of_mem _ hm))]

theorem mergeOne_no_match (now : Nat) (p : Detection) (roster : List PlayerProfile)
    (h : p.identifier ∉ idsOf roster) :
    mergeOne now p roster = roster ++ [freshProfile now p] := by
  calc mergeOne now p roster = mergeOne now p (roster ++ []) := by rw [List.append_nil]
    _ = roster ++ mergeOne now p [] := mergeOne_append_no_match now p roster [] h
    _ = roster ++ [freshProfile now p] := rfl

/-! ### Claim theorems: Aggregator -/

/-- C4: the merged roster's length is the input roster's length plus the
number of distinct previously-unseen identifiers in the detection list, and
the identifiers stay unique. -/
theorem merge_length_unique (now : Nat) (roster : List PlayerProfile) (ds : List Detection)
    (h : (idsOf roster).Nodup) :
    (merge now roster ds).length =
      roster.length +
        ((ds.map Detection.identifier).toFinset \ (idsOf roster).toFinset).card ∧
    (idsOf (merge now roster ds)).Nodup :=
  ⟨merge_length now ds roster, nodup_merge now ds roster h⟩

/-- Witness for C4: one known player, three detections (one update of CB3,
two sightings of one unknown identifier) grow the roster by exactly one and
keep identifiers unique. -/
theorem merge_length_unique_witness :
    (idsOf [cb3Profile]).Nodup ∧
    ((merge 2 [cb3Profile] [cb3Detection2, blankDetection, blankDetection]).length =
      [cb3Profile].length +
        (([cb3Detection2, blankDetection, blankDetection].map Detection.identifier).toFinset \
          (idsOf [cb3Profile]).toFinset).card ∧
      (idsOf (merge 2 [cb3Profile] [cb3Detection2, blankDetection, blankDetection])).Nodup) :=
  ⟨by decide, merge_length_unique 2 [cb3Profile] [cb3Detection2, blankDetection, blankDetection]
    (by decide)⟩

/-- C5: merging a detection whose identifier matches an existing profile
(the first such profile) overwrites its grade, appends the observation to
its notes, appends the weakness tag to its weaknesses when a non-empty tag
is present, sets `last_updated` to now, and leaves the length unchanged. -/
theorem merge_found (now : Nat) (pre post : List PlayerProfile) (r : PlayerProfile)
    (d : Detection) (hmatch : r.identifier = d.identifier)
    (hfirst : d.identifier ∉ idsOf pre) :
    merge now (pre ++ r :: post) [d] =
      pre ++
        { identifier := r.identifier
          position := r.position
          grade := d.grade
          notes := r.notes ++ [d.observation]
          weaknesses := r.weaknesses ++ weaknessAppend d.weakness
          last_updated := now } :: post ∧
    (merge now (pre ++ r :: post) [d]).length = (pre ++ r :: post).length := by
  have hbeq : (r.identifier == d.identifier) = true := beq_iff_eq.mpr hmatch
  have heq : merge now (pre ++ r :: post) [d] =
      pre ++
        { identifier := r.identifier
          position := r.position
          grade := d.grade
          notes := r.notes ++ [d.observation]
          weaknesses := r.weaknesses ++ weaknessAppend d.weakness
          last_updated := now } :: post := by
    have h1 : merge now (pre ++ r :: post) [d] = mergeOne now d (pre ++ r :: post) := rfl
    rw [h1, mergeOne_append_no_match now d pre (r :: post) hfirst, mergeOne, if_pos hbeq]
    rfl
  refine ⟨heq, ?_⟩
  rw [heq]
  simp

/-- Witness for C5: the second CB3 sighting of §8 of the spec — the roster
stays at length 1, notes accumulate both observations in order, the grade
becomes B. -/
theorem merge_found_witness :
    cb3Profile.identifier = cb3Detection2.identifier ∧
    cb3Detection2.identifier ∉ idsOf [] ∧
    (merge 2 ([] ++ cb3Profile :: []) [cb3Detection2] =
      [] ++
        { identifier := cb3Profile.identifier
          position := cb3Profile.position
          grade := cb3Detection2.grade
          notes := cb3Profile.notes ++ [cb3Detection2.observation]
          weaknesses := cb3Profile.weaknesses ++ weaknessAppend cb3Detection2.weakness
          last_updated := 2 } :: [] ∧
      (merge 2 ([] ++ cb3Profile :: []) [cb3Detection2]).length =
        ([] ++ cb3Profile :: []).length) :=
  ⟨rfl, by decide, merge_found 2 [] [] cb3Profile cb3Detection2 rfl (by decide)⟩

/-- C6: merging a detection whose identifier matches no profile appends a
fresh profile at the end of the roster, with `notes = [observation]`,
`weaknesses = [weakness]` when a truthy weakness is present else `[]`, the
given grade, and `last_updated = now` (the schema default). -/
theorem merge_not_found (now : Nat) (roster : List PlayerProfile) (d : Detection)
    (h : d.identifier ∉ idsOf roster) :
    merge now roster [d] =
      roster ++
        [{ identifier := d.identifier
           position := d.position
           grade := d.grade
           notes := [d.observation]
           weaknesses := weaknessAppend d.weakness
           last_updated := now }] := by
  have h1 : merge now roster [d] = mergeOne now d roster := rfl
  rw [h1, mergeOne_no_match now d roster h]
  rfl

/-- Witness for C6: the first CB3 sighting of §8 of the spec — merging the
CB3 detection (grade C minus, observation "late jump", weakness "phase")
into the empty roster yields exactly one profile with
`notes = ["late jump"]` and `weaknesses = ["phase"]`. -/
theorem merge_not_found_witness :
    cb3Detection.identifier ∉ idsOf [] ∧
    merge 1 [] [cb3Detection] =
      [] ++
        [{ identifier := cb3Detection.identifier
           position := cb3Detection.position
           grade := cb3Detection.grade
           notes := [cb3Detection.observation]
           weaknesses := weaknessAppend cb3Detection.weakness
           last_updated := 1 }] :=
  ⟨by decide, merge_not_found 1 [] cb3Detection (by decide)⟩

/-! ### Structure-preservation lemmas for C7 -/

theorem profileExtends_refl (r : PlayerProfile) : profileExtends r r :=
  ⟨rfl, List.prefix_refl _, List.prefix_refl _⟩

theorem profileExtends_trans {a b c : PlayerProfile}
    (h1 : profileExtends a b) (h2 : profileExtends b c) : profileExtends a c :=
  ⟨h2.1.trans h1.1, h1.2.1.trans h2.2.1, h1.2.2.trans h2.2.2⟩

theorem forall2_pe_refl (l : List PlayerProfile) : List.Forall₂ profileExtends l l := by
  induction l with
  | nil => exact List.Forall₂.nil
  | cons r rs ih => exact List.Forall₂.cons (profileExtends_refl r) ih

theorem forall2_pe_trans : ∀ {x y z : List PlayerProfile},
    List.Forall₂ profileExtends x y → List.Forall₂ profileExtends y z →
    List.Forall₂ profileExtends x z := by
  intro x y z h1
  induction h1 generalizing z with
  | nil => intro h2; cases h2; exact List.Forall₂.nil
  | cons hab _ ih =>
    intro h2
    cases h2 with
    | cons hbc htl => exact List.Forall₂.cons (profileExtends_trans hab hbc) (ih htl)

theorem forall2_take {α β : Type} {R : α → β → Prop} :
    ∀ {x : List α} {y : List β}, List.Forall₂ R x y →
    ∀ n, List.Forall₂ R (x.take n) (y.take n) := by
  intro x y h
  induction h with
  | nil => intro n; simp
  | cons hr _ ih =>
    intro n
    cases n with
    | zero => exact List.Forall₂.nil
    | succ k => exact List.Forall₂.cons hr (ih k)

theorem forall2_pe_ids : ∀ {x y : List PlayerProfile},
    List.Forall₂ profileExtends x y → idsOf y = idsOf x := by
  intro x y h
  induction h with
  | nil => rfl
  | cons hr _ ih => rw [idsOf_cons, idsOf_cons, ih, hr.1]

theorem mergeOne_take_drop (now : Nat) (p : Detection) (roster : List PlayerProfile) :
    List.Forall₂ profileExtends roster ((mergeOne now p roster).take roster.length) ∧
    ((mergeOne now p roster).drop roster.length = [] ∨
     (mergeOne now p roster).drop roster.length = [freshProfile now p]) := by
  induction roster with
  | nil => exact ⟨List.Forall₂.nil, Or.inr rfl⟩
  | cons r rs ih =>
    by_cases h : (r.identifier == p.identifier) = true
    · constructor
      · rw [mergeOne, if_pos h, List.length_cons, List.take_succ_cons, List.take_length]
        refine List.Forall₂.cons ⟨rfl, ?_, ?_⟩ (forall2_pe_refl rs)
        · exact List.prefix_append _ _
        · exact List.prefix_append _ _
      · left
        rw [mergeOne, if_pos h, List.length_cons, List.drop_succ_cons, List.drop_length]
    · constructor
      · rw [mergeOne, if_neg (by simp [h]), List.length_cons, List.take_succ_cons]
        exact List.Forall₂.cons (profileExtends_refl r) ih.1
      · rw [mergeOne, if_neg (by simp [h]), List.length_cons, List.drop_succ_cons]
        exact ih.2

theorem merge_take_drop (now : Nat) (ds : List Detection) : ∀ roster : List PlayerProfile,
    List.Forall₂ profileExtends roster ((merge now roster ds).take roster.length) ∧
    List.Sublist (idsOf ((merge now roster ds).drop roster.length))
      (ds.map Detection.identifier) := by
  induction ds with
  | nil =>
    intro roster
    rw [merge_nil, List.take_length, List.drop_length]
    exact ⟨forall2_pe_refl roster, List.nil_sublist _⟩
  | cons d ds ih =>
    intro roster
    rw [merge_cons]
    obtain ⟨F2, SB⟩ := ih (mergeOne now d roster)
    obtain ⟨F1, D⟩ := mergeOne_take_drop now d roster
    have hlen1 : roster.length ≤ (mergeOne now d roster).length := by
      have hl := F1.length_eq
      rw [List.length_take] at hl
      omega
    have hlen2 : (mergeOne now d roster).length ≤ (merge now (mergeOne now d roster) ds).length := by
      have hl := F2.length_eq
      rw [List.length_take] at hl
      omega
    constructor
    · have t1 := forall2_take F2 roster.length
      rw [List.take_take, Nat.min_eq_left hlen1] at t1
      exact forall2_pe_trans F1 t1
    · rcases D with hD | hD
      · have hle : (mergeOne now d roster).length ≤ roster.length := List.drop_eq_nil_iff.mp hD
        have hEq : roster.length = (mergeOne now d roster).length := Nat.le_antisymm hlen1 hle
        rw [hEq, List.map_cons]
        exact SB.cons _
      · have hlen3 : (mergeOne now d roster).length = roster.length + 1 := by
          have h' := congrArg List.length hD
          rw [List.length_drop] at h'
          simp at h'
          omega
        have htakelen : ((merge now (mergeOne now d roster) ds).take
            (mergeOne now d roster).length).length = (mergeOne now d roster).length := by
          rw [List.length_take]
          omega
        have hsplit : (merge now (mergeOne now d roster) ds).drop roster.length =
            ((merge now (mergeOne now d roster) ds).take
              (mergeOne now d roster).length).drop roster.length ++
            (merge now (mergeOne now d roster) ds).drop (mergeOne now d roster).length := by
          conv_lhs => rw [← List.take_append_drop (mergeOne now d roster).length
            (merge now (mergeOne now d roster) ds)]
          rw [List.drop_append_eq_append_drop, htakelen,
            Nat.sub_eq_zero_of_le hlen1, List.drop_zero]
        have hids1 : idsOf ((merge now (mergeOne now d roster) ds).take
            (mergeOne now d roster).length) = idsOf (mergeOne now d roster) :=
          forall2_pe_ids F2
        have hids3 : (idsOf (mergeOne now d roster)).drop roster.length = [d.identifier] := by
          have hmap : idsOf ((mergeOne now d roster).drop roster.length) =
              (idsOf (mergeOne now d roster)).drop roster.length := by
            unfold idsOf
            rw [List.map_drop]
          rw [← hmap, hD]
          rfl
        rw [hsplit, idsOf_append]
        have hids2 : idsOf (((merge now (mergeOne now d roster) ds).take
            (mergeOne now d roster).length).drop roster.length) = [d.identifier] := by
          have hmap : idsOf (((merge now (mergeOne now d roster) ds).take
              (mergeOne now d roster).length).drop roster.length) =
              (idsOf ((merge now (mergeOne now d roster) ds).take
                (mergeOne now d roster).length)).drop roster.length := by
            unfold idsOf
            rw [List.map_drop]
          rw [hmap, hids1, hids3]
        rw [hids2, List.map_cons, List.singleton_append]
        exact SB.cons₂ _

/-! ### Claim theorems: Aggregator structure -/

/-- C7: merging never truncates or reorders a pre-existing profile's notes
or weaknesses (the old lists are prefixes of the new ones — append-only),
each pre-existing roster entry keeps its position and identifier, and the
newly created entries sit after them with identifiers in detection-list
order (a sublist of the detections' identifier sequence). -/
theorem merge_preserves (now : Nat) (roster : List PlayerProfile) (ds : List Detection) :
    List.Forall₂ profileExtends roster ((merge now roster ds).take roster.length) ∧
    List.Sublist (idsOf ((merge now roster ds).drop roster.length))
      (ds.map Detection.identifier) :=
  merge_take_drop now ds roster

/-- C8 counterexample: a detection with every field missing is not skipped —
merging it into the empty roster creates a junk profile (identifier absent,
`notes = [undefined]`), so the output has length 1 where the claimed
skip-semantics would leave the roster empty. -/
theorem merge_malformed_not_skipped :
    merge 0 [] [blankDetection] =
      [{ identifier := none, position := none, grade := none,
         notes := [none], weaknesses := [], last_updated := 0 }] ∧
    (merge 0 [] [blankDetection]).length = 1 :=
  ⟨rfl, rfl⟩

/-- C8 (amended): the merge loop is total over object detection entries and
never aborts — every entry, malformed ones included, is processed like any
other, contributing zero or one roster entry (so the output length is
between the input length and input length + number of detections). -/
theorem merge_total_bounds (now : Nat) (ds : List Detection) :
    ∀ roster : List PlayerProfile,
    roster.length ≤ (merge now roster ds).length ∧
    (merge now roster ds).length ≤ roster.length + ds.length := by
  induction ds with
  | nil => intro roster; simp [merge]
  | cons d ds ih =>
    intro roster
    obtain ⟨h1, h2⟩ := ih (mergeOne now d roster)
    have hl := length_mergeOne now d roster
    rw [merge_cons]
    simp only [List.length_cons]
    by_cases hmem : d.identifier ∈ idsOf roster
    · rw [if_pos hmem] at hl
      omega
    · rw [if_neg hmem] at hl
      omega

/-! ### Fence-stripping lemmas for C9 -/

theorem stripAllF_congr (pat : List Char) :
    ∀ (f1 f2 : Nat) (s : List Char), s.length ≤ f1 → s.length ≤ f2 →
    stripAllF pat f1 s = stripAllF pat f2 s := by
  intro f1
  induction f1 with
  | zero =>
    intro f2 s h1 _
    have hs : s = [] := List.length_eq_zero.mp (Nat.le_zero.mp h1)
    subst hs
    cases f2 <;> rfl
  | succ f ih =>
    intro f2 s h1 h2
    cases s with
    | nil => cases f2 <;> rfl
    | cons c cs =>
      cases f2 with
      | zero => simp at h2
      | succ f2' =>
        simp only [stripAllF]
        have hcs1 : cs.length ≤ f := by simp only [List.length_cons] at h1; omega
        have hcs2 : cs.length ≤ f2' := by simp only [List.length_cons] at h2; omega
        by_cases hp : pat.isPrefixOf (c :: cs) = true
        · rw [if_pos hp, if_pos hp]
          exact ih _ _ (by rw [List.length_drop]; omega) (by rw [List.length_drop]; omega)
        · rw [if_neg hp, if_neg hp, ih _ _ hcs1 hcs2]

theorem stripAll_nilp (pat : List Char) : stripAll pat [] = [] := rfl

theorem stripAll_cons (pat : List Char) (c : Char) (cs : List Char) :
    stripAll pat (c :: cs) =
      if pat.isPrefixOf (c :: cs) then stripAll pat (cs.drop (pat.length - 1))
      else c :: stripAll pat cs := by
  by_cases hp : pat.isPrefixOf (c :: cs) = true
  · rw [if_pos hp]
    show stripAllF pat (c :: cs).length (c :: cs) = _
    simp only [List.length_cons, stripAllF, if_pos hp]
    exact stripAllF_congr pat cs.length _ _ (by rw [List.length_drop]; omega) (le_refl _)
  · rw [if_neg hp]
    show stripAllF pat (c :: cs).length (c :: cs) = _
    simp only [List.length_cons, stripAllF, if_neg hp]
    rfl

theorem stripAll_cons_neg {pat : List Char} {c : Char} {cs : List Char}
    (h : ¬ pat.isPrefixOf (c :: cs) = true) :
    stripAll pat (c :: cs) = c :: stripAll pat cs := by
  rw [stripAll_cons, if_neg h]

theorem stripAll_head_match (pat rest : List Char) (hne : pat ≠ []) :
    stripAll pat (pat ++ rest) = stripAll pat rest := by
  cases pat with
  | nil => exact absurd rfl hne
  | cons p ps =>
    rw [List.cons_append, stripAll_cons]
    have hp : (p :: ps).isPrefixOf (p :: (ps ++ rest)) = true := by
      rw [ List.isPrefixOf_iff_prefix, ← List.cons_append]
      exact List.prefix_append _ _
    rw [if_pos hp]
    congr 1
    simp only [List.length_cons, Nat.add_sub_cancel]
    exact List.drop_left ps rest

theorem stripAll_skip_head {pat : List Char} {x : Char} (hnx : x ∉ pat) (hne : pat ≠ [])
    (v : List Char) : stripAll pat (x :: v) = x :: stripAll pat v := by
  cases pat with
  | nil => exact absurd rfl hne
  | cons p ps =>
    apply stripAll_cons_neg
    intro hc
    rw [ List.isPrefixOf_iff_prefix] at hc
    obtain ⟨t, ht⟩ := hc
    rw [List.cons_append] at ht
    have hx : p = x := ((List.cons.injEq _ _ _ _).mp ht).1
    exact hnx (hx ▸ List.mem_cons_self p ps)

theorem stripAll_break_nl (pat : List Char) (hnl : '\n' ∉ pat) (_hne : pat ≠ []) :
    ∀ (n : Nat) (u v : List Char), u.length ≤ n →
    stripAll pat (u ++ '\n' :: v) = stripAll pat u ++ stripAll pat ('\n' :: v) := by
  intro n
  induction n with
  | zero =>
    intro u v hu
    have hu0 : u = [] := List.length_eq_zero.mp (Nat.le_zero.mp hu)
    subst hu0
    rw [List.nil_append, stripAll_nilp, List.nil_append]
  | succ n ih =>
    intro u v hu
    cases u with
    | nil => rw [List.nil_append, stripAll_nilp, List.nil_append]
    | cons c cs =>
      have hcs : cs.length ≤ n := by simp only [List.length_cons] at hu; omega
      by_cases hp : pat.isPrefixOf (c :: cs) = true
      · have hpx : pat <+: (c :: cs) := by rw [← List.isPrefixOf_iff_prefix]; exact hp
        have hplen : pat.length ≤ cs.length + 1 := by
          have hl := hpx.length_le
          simpa using hl
        have hp2 : pat.isPrefixOf (c :: (cs ++ '\n' :: v)) = true := by
          rw [ List.isPrefixOf_iff_prefix, ← List.cons_append]
          exact hpx.trans (List.prefix_append _ _)
        rw [List.cons_append, stripAll_cons, if_pos hp2, stripAll_cons, if_pos hp]
        have hdrop : (cs ++ '\n' :: v).drop (pat.length - 1) =
            cs.drop (pat.length - 1) ++ '\n' :: v := by
          rw [List.drop_append_eq_append_drop,
            Nat.sub_eq_zero_of_le (by omega : pat.length - 1 ≤ cs.length), List.drop_zero]
        rw [hdrop]
        exact ih _ v (by rw [List.length_drop]; omega)
      · have hp2 : ¬ pat.isPrefixOf (c :: (cs ++ '\n' :: v)) = true := by
          intro hc
          rw [ List.isPrefixOf_iff_prefix, ← List.cons_append] at hc
          rcases List.prefix_or_prefix_of_prefix hc
            (List.prefix_append (c :: cs) ('\n' :: v)) with h1 | h1
          · exact hp (by rw [ List.isPrefixOf_iff_prefix]; exact h1)
          · obtain ⟨r, hr⟩ := h1
            have hr2 : r <+: '\n' :: v := by
              rw [← hr] at hc
              exact (List.prefix_append_right_inj (c :: cs)).mp hc
            cases r with
            | nil =>
              apply hp
              rw [ List.isPrefixOf_iff_prefix, ← hr, List.append_nil]
            | cons x r' =>
              obtain ⟨t, ht⟩ := hr2
              rw [List.cons_append] at ht
              have hx : x = '\n' := ((List.cons.injEq _ _ _ _).mp ht).1
              apply hnl
              rw [← hr]
              apply List.mem_append_right
              subst hx
              exact List.mem_cons_self _ _
        rw [List.cons_append, stripAll_cons_neg hp2, stripAll_cons_neg hp, ih cs v hcs,
          List.cons_append]

theorem jsTrim_cons_nl (s : List Char) : jsTrim ('\n' :: s) = jsTrim s := by
  unfold jsTrim
  rw [List.dropWhile_cons, if_pos (by rfl : isTrimWs '\n' = true)]

theorem jsTrim_concat_nl (s : List Char) : jsTrim (s ++ ['\n']) = jsTrim s := by
  unfold jsTrim
  rw [List.dropWhile_append]
  by_cases h : (s.dropWhile isTrimWs).isEmpty = true
  · rw [if_pos h]
    have h2 : s.dropWhile isTrimWs = [] := by
      cases hx : s.dropWhile isTrimWs with
      | nil => rfl
      | cons a l => rw [hx] at h; simp [List.isEmpty] at h
    rw [h2]
    rfl
  · rw [if_neg h]
    rw [List.reverse_append]
    simp only [List.reverse_cons, List.reverse_nil, List.nil_append, List.singleton_append]
    rw [List.dropWhile_cons, if_pos (by rfl : isTrimWs '\n' = true)]

theorem normalize_wrapFence (t : String) : normalize (wrapFence t) = normalize t := by
  unfold wrapFence normalize
  rw [toList_append, toList_append]
  have hA : ("```json\n" : String).toList = fenceJson ++ ['\n'] := by decide
  have hB : ("\n```" : String).toList = '\n' :: fence3 := by decide
  rw [hA, hB]
  have hassoc : (fenceJson ++ ['\n'] ++ t.toList) ++ '\n' :: fence3 =
      fenceJson ++ '\n' :: (t.toList ++ '\n' :: fence3) := by
    simp [List.append_assoc]
  rw [hassoc]
  rw [stripAll_head_match fenceJson _ (by decide)]
  rw [stripAll_skip_head (by decide : '\n' ∉ fenceJson) (by decide) _]
  rw [stripAll_break_nl fenceJson (by decide) (by decide) t.toList.length t.toList fence3
    (le_refl _)]
  rw [stripAll_skip_head (by decide : '\n' ∉ fenceJson) (by decide) fence3]
  rw [(by decide : stripAll fenceJson fence3 = fence3)]
  rw [stripAll_skip_head (by decide : '\n' ∉ fence3) (by decide) _]
  rw [stripAll_break_nl fence3 (by decide) (by decide)
    (stripAll fenceJson t.toList).length (stripAll fenceJson t.toList) fence3 (le_refl _)]
  rw [stripAll_skip_head (by decide : '\n' ∉ fence3) (by decide) fence3]
  rw [(by decide : stripAll fence3 fence3 = ([] : List Char))]
  rw [jsTrim_cons_nl]
  rw [(rfl : ('\n' :: ([] : List Char)) = ['\n'])]
  rw [jsTrim_concat_nl]

/-! ### Claim theorems: Extractor -/

/-- C9: extracting a payload wrapped in fenced code-block markers
(` ```json ` before, ` ``` ` after) gives the same result as extracting the
unwrapped payload — in particular the claim's case of a valid structured
payload.  (The statement holds for every payload, valid or not.) -/
theorem extract_wrapFence (t : String) : extract (wrapFence t) = extract t := by
  unfold extract
  rw [normalize_wrapFence]

/-- C1 counterexample: on the truncated payload `rawTrunc` the extraction
step throws a parse error (`Except.error`) whose message is a fixed parser
diagnostic that does not carry the raw text, contradicting the claim that a
typed `ExtractionError` value carrying the raw text is returned to the
caller. -/
theorem extract_error_lacks_raw :
    errOf (extract rawTrunc) = some "Unexpected end of JSON input" ∧
    containsStr rawTrunc "Unexpected end of JSON input" = false := by
  constructor
  · decide
  · decide

/-- C1 (amended): on invalid structured text the extraction step throws a
parse exception rather than returning an error value; the route handler's
`catch` converts it into a 500 response carrying the parser's message (not
the raw text), so no exception escapes the route handler. -/
theorem extract_error_caught (now : Nat) (roster : List PlayerProfile) (raw : String)
    (m : String) (h : errOf (extract raw) = some m) :
    analysisRoute now roster raw = RouteResult.serverError m := by
  unfold analysisRoute
  cases hx : extract raw with
  | error e =>
    rw [hx] at h
    simp only [errOf, Option.some.injEq] at h
    subst h
    rfl
  | ok j =>
    rw [hx] at h
    simp [errOf] at h

/-- Witness for the amended C1: the truncated payload produces a parse
error, and the modelled route returns the 500 response with that message. -/
theorem extract_error_caught_witness :
    errOf (extract rawTrunc) = some "Unexpected end of JSON input" ∧
    analysisRoute 0 [] rawTrunc = RouteResult.serverError "Unexpected end of JSON input" :=
  ⟨by decide, extract_error_caught 0 [] rawTrunc _ (by decide)⟩

end SideLinePro
